import Mathlib

/-!
Shallow embedding of the SwissTable core (control-byte metadata, group
scanning, quadratic probing, capacity arithmetic, growth info, and the
core table operations find/insert/erase/resize).

The repository ships only the unit-test file for the raw hash set; the
implementation header itself is not part of the sources.  Every
definition below is therefore modelled from the specification's
description of the unit under test, with the test file pinning the
concrete scenarios (group width 16, expected probe offsets, expected
control-byte transformations, and so on).
-/

namespace Swiss

/-- Modelled from the spec: the group width `W`.  The spec allows 8 or 16;
the test scenarios (probe offsets, `2·W+5` colliding keys) fix `W = 16`. -/
def kWidth : Nat := 16

/-- Modelled from the spec: control byte `Empty` (0x80). -/
def kEmpty : Nat := 0x80

/-- Modelled from the spec: control byte `Deleted` (0xFE). -/
def kDeleted : Nat := 0xFE

/-- Modelled from the spec: control byte `Sentinel` (0xFF). -/
def kSentinel : Nat := 0xFF

/-- Modelled from the spec: `is_full(c) == (c & 0x80) == 0` — the sign bit
distinguishes metadata from full bytes; full bytes carry `h2 ∈ [0,127]`. -/
def isFull (c : Nat) : Bool := c &&& 0x80 == 0

/-- Modelled from the spec: the predicate behind `match_empty_or_deleted`:
bits set at positions not holding `Full` nor `Sentinel`. -/
def isEmptyOrDeleted (c : Nat) : Bool := !(isFull c) && c != kSentinel

/-- A byte value is a legal control byte: `Empty`, `Deleted`, `Sentinel`
or `Full(h2)` with `h2 ∈ [0,127]`. -/
def isLegalCtrl (c : Nat) : Bool :=
  c == kEmpty || c == kDeleted || c == kSentinel || c < 128

/-- The value of a byte `c ∈ [0,256)` when treated as a signed 8-bit
integer (two's complement). -/
def signedVal (c : Nat) : Int := if c < 128 then (c : Int) else (c : Int) - 256

/-- Modelled from the spec: probe-sequence state `(offset, mask, index)`;
`mask = capacity`, `offset` is the current group's first-slot index and
`index` counts bytes of groups visited. -/
structure ProbeSeq where
  mask : Nat
  offset : Nat
  index : Nat
  deriving Repr, DecidableEq

/-- Modelled from the spec: `offset_0 = h1 & mask`. -/
def probeInit (h1 mask : Nat) : ProbeSeq := ⟨mask, h1 &&& mask, 0⟩

/-- Modelled from the spec: `offset_{i+1} = (offset_i + i*W) & mask` where
`i` is the 1-based step counter (add `W`, then `2W`, then `3W`, ...). -/
def probeNext (s : ProbeSeq) : ProbeSeq :=
  let i := s.index + kWidth
  ⟨s.mask, (s.offset + i) &&& s.mask, i⟩

/-- The list of the first `n` offsets yielded by a probe sequence. -/
def probeOffsetsAux : Nat → ProbeSeq → List Nat
  | 0, _ => []
  | n+1, s => s.offset :: probeOffsetsAux n (probeNext s)

/-- The first `n` offsets of the probe sequence starting at `h1` with the
given `mask`. -/
def probeOffsets (h1 mask n : Nat) : List Nat :=
  probeOffsetsAux n (probeInit h1 mask)

/-- Modelled from the spec: a capacity is valid when it is of the form
`2^k - 1` (and positive). -/
def isValidCapacity (c : Nat) : Bool := decide (0 < c) && (c + 1) &&& c == 0

/-- Modelled from the spec we have `capacity_to_growth(c)`:
if `c + 1 < W` return `c` (tiny tables pack tightly), else `c - c/8`
(≈ 87.5% load factor). -/
def capacityToGrowth (c : Nat) : Nat := if c + 1 < kWidth then c else c - c / 8

/-- Walk the chain of valid capacities `1, 3, 7, 15, ...` until the growth
bound covers `s` (fuel-bounded). -/
def sizeToCapacityAux : Nat → Nat → Nat → Nat
  | 0, c, _ => c
  | fuel+1, c, s => if s ≤ capacityToGrowth c then c else sizeToCapacityAux fuel (2*c + 1) s

/-- Modelled from the spec: `size_to_capacity(s)`: the smallest valid
capacity `c` such that `capacity_to_growth(c) ≥ s`, with
`size_to_capacity(0) = 0` and `size_to_capacity(1) = 1`. -/
def sizeToCapacity (s : Nat) : Nat := if s = 0 then 0 else sizeToCapacityAux 100 1 s

/-- Walk the chain of valid capacities until reaching one `≥ n`. -/
def normalizeCapacityAux : Nat → Nat → Nat → Nat
  | 0, c, _ => c
  | fuel+1, c, n => if n ≤ c then c else normalizeCapacityAux fuel (2*c + 1) n

/-- Modelled from the spec: `normalize_capacity(n)`: the smallest value of
the form `2^k - 1` that is `≥ n`, with `normalize_capacity(0) = 1`. -/
def normalizeCapacity (n : Nat) : Nat := normalizeCapacityAux 100 1 n

/-- Modelled from the spec: `next_capacity(c) = 2c + 1`. -/
def nextCapacity (c : Nat) : Nat := 2 * c + 1

/-- Modelled from the spec: growth info is conceptually a `growth_left`
counter plus a sticky `has_deleted` flag. -/
structure GrowthInfo where
  growthLeft : Nat
  hasDeleted : Bool
  deriving Repr, DecidableEq

/-- Modelled from the spec: `init(growth_left)`: clears `has_deleted`,
sets the counter. -/
def initGrowthLeftNoDeleted (g : Nat) : GrowthInfo := ⟨g, false⟩

/-- Modelled from the spec: `overwrite_empty_as_full()`: decrement. -/
def overwriteEmptyAsFull (gi : GrowthInfo) : GrowthInfo :=
  { gi with growthLeft := gi.growthLeft - 1 }

/-- Modelled from the spec: `overwrite_full_as_empty()`: increment, does
not clear `has_deleted`. -/
def overwriteFullAsEmpty (gi : GrowthInfo) : GrowthInfo :=
  { gi with growthLeft := gi.growthLeft + 1 }

/-- Modelled from the spec: `overwrite_full_as_deleted()`: set
`has_deleted`; counter unchanged. -/
def overwriteFullAsDeleted (gi : GrowthInfo) : GrowthInfo :=
  { gi with hasDeleted := true }

/-- Modelled from the spec: `overwrite_control_as_full(prev)`: if `prev`
is `Empty`, decrement; if `prev` is `Deleted`, leave the counter and set
`has_deleted`. -/
def overwriteControlAsFull (gi : GrowthInfo) (prev : Nat) : GrowthInfo :=
  if prev = kEmpty then overwriteEmptyAsFull gi
  else if prev = kDeleted then { gi with hasDeleted := true }
  else gi

/-- Modelled from the spec: the per-byte transformation of
`convert_special_to_empty_and_full_to_deleted`: every `Full` becomes
`Deleted`, every `Empty`/`Deleted` becomes `Empty`, `Sentinel` is
preserved. -/
def convertByte (c : Nat) : Nat :=
  if isFull c then kDeleted else if c = kSentinel then kSentinel else kEmpty

/-- Modelled from the spec: the batch `convert_deleted_to_empty_and_full_to_deleted`
over a control array of the given capacity: bytes `0..capacity-1` are
transformed, the `Sentinel` at index `capacity` is untouched, and the
mirror bytes past the sentinel are restored to reflect the transformed
bytes `0..W-2`.  The argument list holds the `capacity + W` physical
bytes; only the first `capacity` are read. -/
def convertDeletedToEmptyAndFullToDeleted (ctrl : List Nat) (capacity : Nat) : List Nat :=
  (List.range (capacity + kWidth)).map fun i =>
    if i < capacity then convertByte (ctrl.getD i 0)
    else if i = capacity then kSentinel
    else convertByte (ctrl.getD (i - capacity - 1) 0)

/-! ### The table model

Modelled from the spec: a table owns a control array of
`capacity + 1 + (W-1)` physical bytes (sentinel at index `capacity`,
mirror bytes past it), slot storage, a size counter and growth info.
Keys are natural numbers; the caller-supplied hash function is a
parameter of every operation. -/

/-- Modelled from the spec: the table header: capacity (0 or `2^k - 1`),
the physical control array (length `capacity + W` when allocated, with
the sentinel at index `capacity` and the mirror bytes after it), the
slot array, the size and the growth info. -/
structure Table where
  capacity : Nat
  ctrl : List Nat
  slots : List (Option Nat)
  size : Nat
  growth : GrowthInfo
  deriving Repr, DecidableEq

/-- The hash bits `h1` above the low 7 (they seed the probe). -/
def hash1 (h : Nat) : Nat := h >>> 7

/-- The low 7 hash bits `h2` (stored in the control byte). -/
def hash2 (h : Nat) : Nat := h &&& 0x7F

/-- A table of capacity 0: no slots, a sentinel-led static control group
(reads past it see `Empty`). -/
def emptyTable : Table := ⟨0, [kSentinel], [], 0, ⟨0, false⟩⟩

/-- A freshly allocated table: all control bytes `Empty` except the
sentinel at index `capacity`; growth info initialized to
`capacity_to_growth(capacity)` with no deleted. -/
def freshTable (c : Nat) : Table :=
  ⟨c, (List.range (c + kWidth)).map (fun i => if i = c then kSentinel else kEmpty),
   List.replicate c none, 0, initGrowthLeftNoDeleted (capacityToGrowth c)⟩

/-- Read the physical control byte at index `p` (sentinel and mirror
bytes included). -/
def physByte (t : Table) (p : Nat) : Nat := t.ctrl.getD p kEmpty

/-- The key stored in slot `i`, if any. -/
def slotKey (t : Table) (i : Nat) : Option Nat := t.slots.getD i none

/-- Modelled from the spec: writing a control byte updates both the byte
and, for indices `< W-1`, its mirror past the sentinel. -/
def setCtrl (t : Table) (i v : Nat) : List Nat :=
  let c1 := t.ctrl.set i v
  if i < kWidth - 1 then c1.set (i + t.capacity + 1) v else c1

/-- One group scan of `find`: the first in-group position whose control
byte matches `h2` and whose slot holds the key. -/
def groupFindHit (t : Table) (o h2v k : Nat) : Option Nat :=
  ((List.range kWidth).find? fun j =>
    physByte t (o + j) == h2v && slotKey t ((o + j) &&& t.capacity) == some k).map
    fun j => (o + j) &&& t.capacity

/-- Whether the group starting at physical offset `o` contains an `Empty`
byte (`match_empty() ≠ 0`). -/
def groupHasEmpty (t : Table) (o : Nat) : Bool :=
  (List.range kWidth).any fun j => physByte t (o + j) == kEmpty

/-- Modelled from the spec: `find`: walk the probe sequence; in each
group try the `match(h2)` candidates with `eq`; if the group has an
`Empty` byte, stop.  Fuel bounds the walk (a full walk visits every
group once). -/
def findAux (t : Table) (h2v k : Nat) : Nat → ProbeSeq → Option Nat
  | 0, _ => none
  | fuel+1, s =>
    match groupFindHit t s.offset h2v k with
    | some i => some i
    | none => if groupHasEmpty t s.offset then none
              else findAux t h2v k fuel (probeNext s)

/-- Lookup of `key`: returns the slot index holding the key, if present. -/
def find (hash : Nat → Nat) (t : Table) (k : Nat) : Option Nat :=
  findAux t (hash2 (hash k)) k (t.capacity + 1) (probeInit (hash1 (hash k)) t.capacity)

/-- Modelled from the spec: the insertion target inside a group holding a
non-full byte: the lowest-index `Deleted` slot if any, else the
lowest-index `Empty` slot.  Returns the physical position (the slot
index is its masked value). -/
def groupInsertTarget (t : Table) (o : Nat) : Option Nat :=
  match (List.range kWidth).find? (fun j => physByte t (o + j) == kDeleted) with
  | some j => some (o + j)
  | none =>
    ((List.range kWidth).find? fun j => physByte t (o + j) == kEmpty).map
      fun j => o + j

/-- Whether the group starting at `o` has any non-full, non-sentinel byte
(`match_empty_or_deleted() ≠ 0`). -/
def groupHasNonFull (t : Table) (o : Nat) : Bool :=
  (List.range kWidth).any fun j => isEmptyOrDeleted (physByte t (o + j))

/-- Modelled from the spec: locate the first insertion target: in the
first group along the probe sequence containing a non-full byte, pick
the lowest-index `Deleted` slot if any, else the lowest-index `Empty`
slot. -/
def findFirstNonFullAux (t : Table) : Nat → ProbeSeq → Option Nat
  | 0, _ => none
  | fuel+1, s =>
    if groupHasNonFull t s.offset then groupInsertTarget t s.offset
    else findFirstNonFullAux t fuel (probeNext s)

/-- The first insertion target along the probe sequence for `h1`. -/
def findFirstNonFull (t : Table) (h1v : Nat) : Option Nat :=
  findFirstNonFullAux t (t.capacity + 1) (probeInit h1v t.capacity)

/-- Modelled from the spec: construct the element into the slot, set the
control byte to `Full(h2)` (and its mirror), update the growth info via
`overwrite_control_as_full(prev)`, bump the size.  `p` is the physical
position returned by `findFirstNonFull`; the slot index is `p & mask`. -/
def placeAt (hash : Nat → Nat) (t : Table) (k p : Nat) : Table :=
  let target := p &&& t.capacity
  let prev := physByte t p
  { capacity := t.capacity
    ctrl := setCtrl t target (hash2 (hash k))
    slots := t.slots.set target (some k)
    size := t.size + 1
    growth := overwriteControlAsFull t.growth prev }

/-- Modelled from the spec: grow/rebuild: allocate the new capacity and,
for each live slot of the old table in index order, find an insertion
slot via empty probing (no `eq` needed — no duplicates exist) and
transfer the element. -/
def resize (hash : Nat → Nat) (t : Table) (newCap : Nat) : Table :=
  t.slots.foldl
    (fun acc s =>
      match s with
      | some k =>
        match findFirstNonFull acc (hash1 (hash k)) with
        | some tgt => placeAt hash acc k tgt
        | none => acc
      | none => acc)
    (freshTable newCap)

/-- Modelled from the spec: `insert(key)`: find; if found return the slot
with `inserted = false`.  Else locate the first insertion target; if the
chosen byte is `Empty` and `growth_left == 0`, grow first and re-locate;
else proceed without growing.  Returns the table and the `inserted`
flag. -/
def insert (hash : Nat → Nat) (t : Table) (k : Nat) : Table × Bool :=
  match find hash t k with
  | some _ => (t, false)
  | none =>
    match findFirstNonFull t (hash1 (hash k)) with
    | some p =>
      if physByte t p == kEmpty && t.growth.growthLeft == 0 then
        let t1 := resize hash t (nextCapacity t.capacity)
        match findFirstNonFull t1 (hash1 (hash k)) with
        | some p1 => (placeAt hash t1 k p1, true)
        | none => (t1, false)
      else (placeAt hash t k p, true)
    | none => (t, false)

/-- The smallest distance `d ∈ [1, W-1]` at which `f d` is an `Empty`
byte (used by the erase short-run heuristic). -/
def firstEmptyDist (t : Table) (f : Nat → Nat) : Option Nat :=
  ((List.range (kWidth - 1)).map (· + 1)).find? fun d => physByte t (f d) == kEmpty

/-- Modelled from the spec: the erase short-run test: examine the group
starting at `(slot - W + 1) & mask` and the group starting at `slot`; the
slot may be reclaimed as `Empty` only when there is an `Empty` in each
direction and both fit inside one window of `W` bytes (so no probe chain
can be truncated); otherwise the slot must become `Deleted`. -/
def wasNeverFull (t : Table) (i : Nat) : Bool :=
  let pb := (i + (t.capacity + 1) * kWidth - (kWidth - 1)) &&& t.capacity
  match firstEmptyDist t (fun d => pb + (kWidth - 1 - d)),
        firstEmptyDist t (fun d => i + d) with
  | some db, some da => db + da < kWidth
  | _, _ => false

/-- Modelled from the spec: `erase`: find the key; destroy the element;
mark the byte `Empty` (reclaiming growth) in a short run, else `Deleted`
(setting `has_deleted`).  Returns the table and the number of erased
elements (0 or 1). -/
def erase (hash : Nat → Nat) (t : Table) (k : Nat) : Table × Nat :=
  match find hash t k with
  | none => (t, 0)
  | some i =>
    let t1 : Table :=
      if wasNeverFull t i then
        { t with ctrl := setCtrl t i kEmpty, slots := t.slots.set i none,
                 size := t.size - 1, growth := overwriteFullAsEmpty t.growth }
      else
        { t with ctrl := setCtrl t i kDeleted, slots := t.slots.set i none,
                 size := t.size - 1, growth := overwriteFullAsDeleted t.growth }
    (t1, 1)

/-- Modelled from the spec: `reserve(n)`: if `size_to_capacity(n)` exceeds
the capacity, grow to exactly that. -/
def reserve (hash : Nat → Nat) (t : Table) (n : Nat) : Table :=
  let c := sizeToCapacity n
  if t.capacity < c then resize hash t c else t

/-- Modelled from the spec: `rehash(n)`: for `n = 0` on an empty table
release the allocation; else rebuild at
`normalize_capacity(max(size_to_capacity(size), size_to_capacity(n)))`. -/
def rehash (hash : Nat → Nat) (t : Table) (n : Nat) : Table :=
  if n = 0 then
    if t.size = 0 then emptyTable else resize hash t (sizeToCapacity t.size)
  else resize hash t (normalizeCapacity (max (sizeToCapacity t.size) (sizeToCapacity n)))

/-! ### Size-overflow guard

Modelled from the spec: a `max_valid_size(slot_size)` is computed such
that `capacity * slot_size` cannot overflow a machine word and the size
fits the reserved bits of the size counter; any attempt to exceed it
must fail fatally with "Hash table size overflow". -/

/-- Modelled from the spec: the number of bits reserved for the size
counter (the tests bound the maximal size by `2^60` on 64-bit words). -/
def kSizeBitCount : Nat := 60

/-- Whether a capacity is usable for the given slot size: the slot
storage fits a machine word and the resulting sizes fit the size
counter. -/
def capacityFits (slotSize c : Nat) : Bool :=
  c * slotSize < 2 ^ 64 && capacityToGrowth c < 2 ^ kSizeBitCount

/-- The largest capacity in the chain `1, 3, 7, ...` that still fits. -/
def maxValidCapacityAux (slotSize : Nat) : Nat → Nat → Nat
  | 0, c => c
  | fuel+1, c =>
    if capacityFits slotSize (2 * c + 1) then maxValidCapacityAux slotSize fuel (2 * c + 1)
    else c

/-- Modelled from the spec: `max_valid_size(slot_size)`: the largest
request that still maps to a capacity whose allocation cannot overflow. -/
def maxValidSize (slotSize : Nat) : Nat :=
  capacityToGrowth (maxValidCapacityAux slotSize 100 1)

/-- The guard applied by every growth request. -/
def isAboveValidSize (n slotSize : Nat) : Bool := maxValidSize slotSize < n

/-- The reserve operation with the overflow guard: fatal "Hash table size overflow"
when the request exceeds `max_valid_size`. -/
def reserveE (hash : Nat → Nat) (slotSize : Nat) (t : Table) (n : Nat) : Except String Table :=
  if isAboveValidSize n slotSize then .error "Hash table size overflow"
  else .ok (reserve hash t n)

/-- The rehash operation with the overflow guard. -/
def rehashE (hash : Nat → Nat) (slotSize : Nat) (t : Table) (n : Nat) : Except String Table :=
  if isAboveValidSize n slotSize then .error "Hash table size overflow"
  else .ok (rehash hash t n)

/-- Construction with a bucket count, with the overflow guard. -/
def ofBucketCountE (slotSize n : Nat) : Except String Table :=
  if isAboveValidSize n slotSize then .error "Hash table size overflow"
  else .ok (freshTable (normalizeCapacity n))

/-! ### Concrete scenarios pinned by the tests -/

/-- The bad hash of the collision test: every key hashes to 0. -/
def badHash : Nat → Nat := fun _ => 0

/-- The identity hash model used for the deterministic scenarios. -/
def idHash : Nat → Nat := fun k => k

/-- The key count `2·W + 5`: enough for two full groups of collisions plus extra
collisions in the last group. -/
def kNumInserts : Nat := 2 * kWidth + 5

/-- Insert the keys `0 .. 2W+4` (all colliding) into an empty table,
checking that every insert reports success and that the size is `i+1`
after inserting key `i`. -/
def c1InsertPhase : Table × Bool :=
  (List.range kNumInserts).foldl
    (fun acc i =>
      let r := insert badHash acc.1 i
      (r.1, acc.2 && r.2 && (r.1.size == i + 1)))
    (emptyTable, true)

/-- After `erase(i)`: every key `j > i` is still found, re-emplacing it
reports not-inserted and leaves the size at `2W+5 - i - 1`. -/
def c1EraseCheck (t : Table) (i : Nat) : Bool :=
  (List.range' (i + 1) (kNumInserts - i - 1)).all fun j =>
    (find badHash t j).isSome &&
    (insert badHash t j).2 == false &&
    (insert badHash t j).1.size == kNumInserts - i - 1

/-- Erase the keys `0 .. 2W+4` in order, checking that each erase
reports one removed element and that all later keys stay findable. -/
def c1ErasePhase : Table × Bool :=
  (List.range kNumInserts).foldl
    (fun acc i =>
      let r := erase badHash acc.1 i
      (r.1, acc.2 && r.2 == 1 && c1EraseCheck r.1 i))
    (c1InsertPhase.1, true)

/-- The repeating 7-byte control pattern of the drop-deletes batch
scenario. -/
def c5Pattern : List Nat := [kEmpty, 2, kDeleted, 2, kEmpty, 1, kDeleted]

/-- The capacity-63 control array filled with the repeating pattern, the
sentinel at index 63 and the mirror bytes filled from the pattern. -/
def c5Ctrl : List Nat :=
  (List.range 79).map fun i =>
    if i = 63 then kSentinel else c5Pattern.getD (i % 64 % 7) 0

/-- The expected control array after the batch conversion: previously
full bytes are `Deleted`, previously empty-or-deleted bytes are `Empty`,
the sentinel is untouched and the mirror bytes reflect bytes `0..W-2`. -/
def c5Expected : List Nat :=
  (List.range 79).map fun i =>
    if i = 63 then kSentinel
    else if isFull (c5Pattern.getD (i % 64 % 7) 0) then kDeleted else kEmpty

/-- The replacing-a-deleted-slot scenario: pre-size for `n` via
`rehash(n)`, insert `0..n-1` (exhausting the growth counter), erase key
0, re-insert key 0; the capacity must never change and key 0 must get
its slot back. -/
def c8Run (n : Nat) : Bool :=
  let t0 := rehash idHash emptyTable n
  let c := t0.capacity
  let t1 := (List.range n).foldl (fun t i => (insert idHash t i).1) t0
  let t2 := (erase idHash t1 0).1
  let r3 := insert idHash t2 0
  n == capacityToGrowth c &&
  t1.capacity == c && t1.size == n && t1.growth.growthLeft == 0 &&
  t2.capacity == c &&
  r3.2 && r3.1.capacity == c && r3.1.size == n &&
  find idHash r3.1 0 == find idHash t1 0

/-- The key universe of the insert-within-capacity scenario: `n = 4`
distinct keys. -/
def c10Keys : List Nat := [0, 1, 2, 3]

/-- Extend a list of distinct inserted keys by each not-yet-present
key. -/
def c10Extend (K : List Nat) : List (List Nat) :=
  (c10Keys.filter fun k => !(K.contains k)).map fun k => K ++ [k]

/-- All insertion orders of subsets of the key universe. -/
def c10KeyLists : List (List Nat) :=
  let l0 : List (List Nat) := [[]]
  let l1 := l0.flatMap c10Extend
  let l2 := l1.flatMap c10Extend
  let l3 := l2.flatMap c10Extend
  let l4 := l3.flatMap c10Extend
  l0 ++ l1 ++ l2 ++ l3 ++ l4

/-- Run a sequence of inserts. -/
def runInserts (t : Table) (ks : List Nat) : Table :=
  ks.foldl (fun t k => (insert idHash t k).1) t

/-- The table reached from `reserve(4)` by inserting the distinct keys
of `K` in order (capacity 7; keys land in slots `0, 1, 2, ...`). -/
def c10TableOf (K : List Nat) : Table :=
  runInserts (reserve idHash emptyTable 4) K

/-- Every table reachable from `reserve(4)` by inserts from the key
universe. -/
def c10States : List Table := c10KeyLists.map c10TableOf

/-- The per-point property of the size-to-capacity minimality check:
for `g ≥ 1`, `size_to_capacity(g)` is a valid capacity, its growth bound
covers `g`, and the growth bound of the next smaller valid capacity
(`c/2`) does not. -/
def c4p (g : Nat) : Bool :=
  decide (1 ≤ g → isValidCapacity (sizeToCapacity g) = true ∧
    g ≤ capacityToGrowth (sizeToCapacity g) ∧
    capacityToGrowth (sizeToCapacity g / 2) < g)

/-- The check `c4p` on the `n` values `lo, lo+1, ..., lo+n-1` (kept
shallow so the kernel can evaluate chunks iteratively). -/
def c4CheckFrom (lo : Nat) : Nat → Bool
  | 0 => true
  | n+1 => c4p (lo + n) && c4CheckFrom lo n

/-! ### Theorems -/

/-- C2: for the probe sequence with group width `W = 16`, `mask = 127`
and starting index `h1 = 0`, eight successive calls yield exactly the
offsets `0, 16, 48, 96, 32, 112, 80, 64`; starting from `h1 = 128`
yields the same eight offsets. -/
theorem probe_seq_offsets :
    probeOffsets 0 127 8 = [0, 16, 48, 96, 32, 112, 80, 64] ∧
    probeOffsets 128 127 8 = [0, 16, 48, 96, 32, 112, 80, 64] := by decide

/-- C3, counterexample: the claim "`is_empty_or_deleted(c)` holds exactly
when `c ≥ Deleted` under signed comparison" fails at the legal control
byte `Sentinel` (0xFF): its signed value `-1` is `≥ -2 = signed Deleted`
yet the predicate (true exactly for `Empty` and `Deleted`) is false — and
also at `Empty` (0x80): the predicate is true yet `-128 < -2`. -/
theorem signed_ge_deleted_counterexample :
    isLegalCtrl kSentinel = true ∧
    ¬ (isEmptyOrDeleted kSentinel = true ↔ signedVal kDeleted ≤ signedVal kSentinel) ∧
    isLegalCtrl kEmpty = true ∧
    ¬ (isEmptyOrDeleted kEmpty = true ↔ signedVal kDeleted ≤ signedVal kEmpty) := by decide

set_option maxRecDepth 4000 in
/-- C3, amended: for every byte, `is_empty_or_deleted(c)` (true for
`Empty` and `Deleted`, false for `Full` and `Sentinel`) holds exactly
when `c < Sentinel` under signed byte comparison. -/
theorem is_empty_or_deleted_signed :
    ∀ c : Nat, c < 256 →
      (isEmptyOrDeleted c = true ↔ signedVal c < signedVal kSentinel) := by decide

/-- C3, witness: the amended equivalence instantiated at `Empty`. -/
theorem is_empty_or_deleted_signed_witness :
    kEmpty < 256 ∧ (isEmptyOrDeleted kEmpty = true ↔ signedVal kEmpty < signedVal kSentinel) :=
  ⟨by decide, is_empty_or_deleted_signed kEmpty (by decide)⟩

set_option maxRecDepth 4000 in
set_option maxHeartbeats 1000000 in
/-- Chunk 0 of the size-to-capacity minimality check. -/
theorem c4chunk0 : c4CheckFrom 0 1000 = true := by decide

set_option maxRecDepth 4000 in
set_option maxHeartbeats 1000000 in
/-- Chunk 1 of the size-to-capacity minimality check. -/
theorem c4chunk1 : c4CheckFrom 1000 1000 = true := by decide

set_option maxRecDepth 4000 in
set_option maxHeartbeats 1000000 in
/-- Chunk 2 of the size-to-capacity minimality check. -/
theorem c4chunk2 : c4CheckFrom 2000 1000 = true := by decide

set_option maxRecDepth 4000 in
set_option maxHeartbeats 1000000 in
/-- Chunk 3 of the size-to-capacity minimality check. -/
theorem c4chunk3 : c4CheckFrom 3000 1000 = true := by decide

set_option maxRecDepth 4000 in
set_option maxHeartbeats 1000000 in
/-- Chunk 4 of the size-to-capacity minimality check. -/
theorem c4chunk4 : c4CheckFrom 4000 1000 = true := by decide

set_option maxRecDepth 4000 in
set_option maxHeartbeats 1000000 in
/-- Chunk 5 of the size-to-capacity minimality check. -/
theorem c4chunk5 : c4CheckFrom 5000 1000 = true := by decide

set_option maxRecDepth 4000 in
set_option maxHeartbeats 1000000 in
/-- Chunk 6 of the size-to-capacity minimality check. -/
theorem c4chunk6 : c4CheckFrom 6000 1000 = true := by decide

set_option maxRecDepth 4000 in
set_option maxHeartbeats 1000000 in
/-- Chunk 7 of the size-to-capacity minimality check. -/
theorem c4chunk7 : c4CheckFrom 7000 1000 = true := by decide

set_option maxRecDepth 4000 in
set_option maxHeartbeats 1000000 in
/-- Chunk 8 of the size-to-capacity minimality check. -/
theorem c4chunk8 : c4CheckFrom 8000 1000 = true := by decide

set_option maxRecDepth 4000 in
set_option maxHeartbeats 1000000 in
/-- Chunk 9 of the size-to-capacity minimality check. -/
theorem c4chunk9 : c4CheckFrom 9000 1000 = true := by decide

/-- A passing `c4CheckFrom` check yields the per-point property. -/
theorem c4CheckFrom_spec : ∀ (n lo : Nat), c4CheckFrom lo n = true →
    ∀ d, d < n → c4p (lo + d) = true := by
  intro n
  induction n with
  | zero => intro lo _ d hd; exact absurd hd (Nat.not_lt_zero d)
  | succ m ih =>
    intro lo h d hd
    have hx : (c4p (lo + m) && c4CheckFrom lo m) = true := h
    rw [Bool.and_eq_true] at hx
    have h2 := hx
    rcases Nat.lt_succ_iff_lt_or_eq.mp hd with hlt | heq
    · exact ih lo h2.2 d hlt
    · rw [heq]; exact h2.1

/-- Chunk membership gives the per-point property at `g`. -/
theorem c4p_of_chunk (lo n g : Nat) (h : c4CheckFrom lo n = true)
    (hlo : lo ≤ g) (hhi : g < lo + n) : c4p g = true := by
  have hd : g - lo < n := by omega
  have := c4CheckFrom_spec n lo h (g - lo) hd
  rwa [Nat.add_sub_cancel' hlo] at this

/-- C4: `size_to_capacity` maps 0, 1, 2, 3 to 0, 1, 3, 3; and for every
`g ∈ [1, 10000)` it returns a valid capacity whose growth bound covers
`g` while the growth bound of the next smaller valid capacity does not:
it is the smallest valid capacity with enough growth. -/
theorem size_to_capacity_minimal :
    sizeToCapacity 0 = 0 ∧ sizeToCapacity 1 = 1 ∧ sizeToCapacity 2 = 3 ∧ sizeToCapacity 3 = 3 ∧
    ∀ g, g < 10000 → 1 ≤ g →
      isValidCapacity (sizeToCapacity g) = true ∧
      g ≤ capacityToGrowth (sizeToCapacity g) ∧
      capacityToGrowth (sizeToCapacity g / 2) < g := by
  refine ⟨rfl, rfl, rfl, rfl, ?_⟩
  intro g hg
  have hp : c4p g = true := by
    rcases Nat.lt_or_ge g 1000 with h | _; · exact c4p_of_chunk 0 1000 g c4chunk0 (Nat.zero_le g) (by omega)
    rcases Nat.lt_or_ge g 2000 with h | _; · exact c4p_of_chunk 1000 1000 g c4chunk1 (by omega) (by omega)
    rcases Nat.lt_or_ge g 3000 with h | _; · exact c4p_of_chunk 2000 1000 g c4chunk2 (by omega) (by omega)
    rcases Nat.lt_or_ge g 4000 with h | _; · exact c4p_of_chunk 3000 1000 g c4chunk3 (by omega) (by omega)
    rcases Nat.lt_or_ge g 5000 with h | _; · exact c4p_of_chunk 4000 1000 g c4chunk4 (by omega) (by omega)
    rcases Nat.lt_or_ge g 6000 with h | _; · exact c4p_of_chunk 5000 1000 g c4chunk5 (by omega) (by omega)
    rcases Nat.lt_or_ge g 7000 with h | _; · exact c4p_of_chunk 6000 1000 g c4chunk6 (by omega) (by omega)
    rcases Nat.lt_or_ge g 8000 with h | _; · exact c4p_of_chunk 7000 1000 g c4chunk7 (by omega) (by omega)
    rcases Nat.lt_or_ge g 9000 with h | _; · exact c4p_of_chunk 8000 1000 g c4chunk8 (by omega) (by omega)
    exact c4p_of_chunk 9000 1000 g c4chunk9 (by omega) (by omega)
  exact of_decide_eq_true hp

/-- C4, witness: the minimality property instantiated at `g = 7`. -/
theorem size_to_capacity_minimal_witness :
    isValidCapacity (sizeToCapacity 7) = true ∧
    7 ≤ capacityToGrowth (sizeToCapacity 7) ∧
    capacityToGrowth (sizeToCapacity 7 / 2) < 7 :=
  size_to_capacity_minimal.2.2.2.2 7 (by decide) (by decide)

/-- C5: on a capacity-63 control array filled with the repeating pattern
`[Empty, 2, Deleted, 2, Empty, 1, Deleted]` and a sentinel at index 63,
the batch conversion turns every previously full byte into `Deleted` and
every previously empty-or-deleted byte into `Empty`, keeps the sentinel
untouched, and the mirror bytes reflect the transformation of bytes
`0 .. W-2`. -/
theorem drop_deletes_batch :
    convertDeletedToEmptyAndFullToDeleted c5Ctrl 63 = c5Expected := by decide

/-- C7: on every growth-info state, `overwrite_full_as_empty` increments
the counter by one and leaves the `has_deleted` flag unchanged (so it
never clears a set flag), and `overwrite_full_as_deleted` sets the flag
and leaves the counter unchanged. -/
theorem growth_info_overwrite_full :
    ∀ gi : GrowthInfo,
      (overwriteFullAsEmpty gi).growthLeft = gi.growthLeft + 1 ∧
      (overwriteFullAsEmpty gi).hasDeleted = gi.hasDeleted ∧
      (overwriteFullAsDeleted gi).hasDeleted = true ∧
      (overwriteFullAsDeleted gi).growthLeft = gi.growthLeft :=
  fun _ => ⟨rfl, rfl, rfl, rfl⟩

/-- C7, witness: the frame properties instantiated at the state with
counter 5 and the flag set. -/
theorem growth_info_overwrite_full_witness :
    (overwriteFullAsEmpty ⟨5, true⟩).growthLeft = 6 ∧
    (overwriteFullAsEmpty ⟨5, true⟩).hasDeleted = true ∧
    (overwriteFullAsDeleted ⟨5, true⟩).hasDeleted = true ∧
    (overwriteFullAsDeleted ⟨5, true⟩).growthLeft = 5 :=
  growth_info_overwrite_full ⟨5, true⟩

/-- C6: every growth request (construction with a bucket count, reserve,
rehash) whose argument exceeds `max_valid_size(slot_size)` fails fatally
with "Hash table size overflow", on any table; requests at or below the
bound succeed.  In addition, at slot size 8 the threshold is exact: the
capacity serving `max_valid_size` still fits the machine-word and
size-counter bounds while the next capacity does not, and
`max_valid_size + 1` is the first request mapped to that overflowing
capacity. -/
theorem size_overflow_guard :
    (∀ (hash : Nat → Nat) (slotSize n : Nat) (t : Table),
      (maxValidSize slotSize < n →
        reserveE hash slotSize t n = .error "Hash table size overflow" ∧
        rehashE hash slotSize t n = .error "Hash table size overflow" ∧
        ofBucketCountE slotSize n = .error "Hash table size overflow") ∧
      (n ≤ maxValidSize slotSize →
        reserveE hash slotSize t n = .ok (reserve hash t n) ∧
        rehashE hash slotSize t n = .ok (rehash hash t n) ∧
        ofBucketCountE slotSize n = .ok (freshTable (normalizeCapacity n)))) ∧
    capacityFits 8 (maxValidCapacityAux 8 100 1) = true ∧
    capacityFits 8 (nextCapacity (maxValidCapacityAux 8 100 1)) = false ∧
    sizeToCapacity (maxValidSize 8) = maxValidCapacityAux 8 100 1 ∧
    sizeToCapacity (maxValidSize 8 + 1) = nextCapacity (maxValidCapacityAux 8 100 1) := by
  refine ⟨?_, by decide, by decide, by decide, by decide⟩
  intro hash slotSize n t
  constructor
  · intro h
    have hb : isAboveValidSize n slotSize = true := decide_eq_true h
    exact ⟨by simp [reserveE, hb], by simp [rehashE, hb], by simp [ofBucketCountE, hb]⟩
  · intro h
    have hb : isAboveValidSize n slotSize = false := decide_eq_false (Nat.not_lt.mpr h)
    exact ⟨by simp [reserveE, hb], by simp [rehashE, hb], by simp [ofBucketCountE, hb]⟩

/-- C6, witness: at slot size 8, a request of `max_valid_size + 1`
fails fatally and a request of `max_valid_size` succeeds. -/
theorem size_overflow_guard_witness :
    reserveE idHash 8 emptyTable (maxValidSize 8 + 1) = .error "Hash table size overflow" ∧
    rehashE idHash 8 emptyTable (maxValidSize 8) = .ok (rehash idHash emptyTable (maxValidSize 8)) :=
  ⟨((size_overflow_guard.1 idHash 8 (maxValidSize 8 + 1) emptyTable).1
      (Nat.lt_succ_self _)).1,
   ((size_overflow_guard.1 idHash 8 (maxValidSize 8) emptyTable).2
      (Nat.le_refl _)).2.1⟩

set_option maxRecDepth 100000 in
set_option maxHeartbeats 10000000 in
/-- C8: insert `n = capacity_to_growth(capacity)` keys `0..n-1` into a
table pre-sized for `n` (growth exhausted), then `erase(0)` followed by
`insert(0)`: the capacity never changes and the re-insert reuses the
deleted slot — checked at `n = 14` (capacity 15) and `n = 56`
(capacity 63). -/
theorem replacing_deleted_slot_does_not_rehash :
    c8Run 14 = true ∧ c8Run 56 = true := by decide

set_option maxRecDepth 100000 in
set_option maxHeartbeats 40000000 in
/-- C1: with a hash mapping every key to the same value, inserting the
`2W+5` keys `0..2W+4` reports success with size `i+1` at every step;
then erasing the keys in order, each `erase(i)` removes one element and
every key `j > i` stays findable (re-emplacing it reports not-inserted
and leaves the size unchanged); after all erases the table is empty. -/
theorem insert_collision_and_find_after_delete :
    c1InsertPhase.2 = true ∧ c1ErasePhase.2 = true ∧ c1ErasePhase.1.size = 0 := by decide

set_option maxRecDepth 4000 in
set_option maxHeartbeats 10000000 in
/-- The reachable-state set of the insert-within-capacity scenario is
closed under inserts from the key universe. -/
theorem c10_step_mem : ∀ t ∈ c10States, ∀ k, k < 4 → (insert idHash t k).1 ∈ c10States := by
  decide

set_option maxRecDepth 4000 in
/-- Every reachable state of the scenario has capacity 7. -/
theorem c10_cap : ∀ t ∈ c10States, t.capacity = 7 := by decide

set_option maxRecDepth 4000 in
set_option maxHeartbeats 10000000 in
/-- One insert from the key universe never moves an already-stored
element of a reachable state. -/
theorem c10_step_stable : ∀ t ∈ c10States, ∀ k, k < 4 → ∀ j, j < 4 →
    (find idHash t j).isSome = true →
    find idHash (insert idHash t k).1 j = find idHash t j := by decide

set_option maxRecDepth 4000 in
/-- The scenario's start state `reserve(4)` is reachable. -/
theorem c10_start_mem : reserve idHash emptyTable 4 ∈ c10States := by decide

/-- Any insert sequence over the key universe stays in the reachable
states. -/
theorem c10_run_mem : ∀ (ks : List Nat) (t : Table), t ∈ c10States →
    (∀ k ∈ ks, k < 4) → runInserts t ks ∈ c10States := by
  intro ks
  induction ks with
  | nil => intro t ht _; exact ht
  | cons a l ih =>
    intro t ht hks
    have ha : a < 4 := hks a (List.mem_cons_self a l)
    exact ih (insert idHash t a).1 (c10_step_mem t ht a ha)
      fun k hk => hks k (List.mem_cons_of_mem a hk)

/-- A whole insert sequence over the key universe never moves an
already-stored element of a reachable state. -/
theorem c10_run_stable : ∀ (more : List Nat) (t : Table), t ∈ c10States →
    (∀ k ∈ more, k < 4) → ∀ j, j < 4 → (find idHash t j).isSome = true →
    find idHash (runInserts t more) j = find idHash t j := by
  intro more
  induction more with
  | nil => intro t _ _ j _ _; rfl
  | cons a l ih =>
    intro t ht hks j hj hsome
    have ha : a < 4 := hks a (List.mem_cons_self a l)
    have h1 : find idHash (insert idHash t a).1 j = find idHash t j :=
      c10_step_stable t ht a ha j hj hsome
    have hmem : (insert idHash t a).1 ∈ c10States := c10_step_mem t ht a ha
    have h2 : (find idHash (insert idHash t a).1 j).isSome = true := by rw [h1]; exact hsome
    have h3 := ih (insert idHash t a).1 hmem
      (fun k hk => hks k (List.mem_cons_of_mem a hk)) j hj h2
    exact h3.trans h1

/-- C10: after `reserve(4)` on an empty table, any sequence of inserts
drawn from a universe of 4 distinct keys — duplicates repeated in any
number and order — never changes the capacity, and a stored element's
slot (its address) stays stable under any further such inserts. -/
theorem insert_within_capacity :
    ∀ ks : List Nat, (∀ k ∈ ks, k < 4) →
      (runInserts (reserve idHash emptyTable 4) ks).capacity
        = (reserve idHash emptyTable 4).capacity ∧
      ∀ more : List Nat, (∀ k ∈ more, k < 4) → ∀ j, j < 4 →
        (find idHash (runInserts (reserve idHash emptyTable 4) ks) j).isSome = true →
        find idHash (runInserts (reserve idHash emptyTable 4) (ks ++ more)) j
          = find idHash (runInserts (reserve idHash emptyTable 4) ks) j := by
  intro ks hks
  have hmem := c10_run_mem ks (reserve idHash emptyTable 4) c10_start_mem hks
  constructor
  · rw [c10_cap (runInserts (reserve idHash emptyTable 4) ks) hmem]
    decide
  · intro more hmore j hj hsome
    have happ : runInserts (reserve idHash emptyTable 4) (ks ++ more)
        = runInserts (runInserts (reserve idHash emptyTable 4) ks) more := by
      simp [runInserts, List.foldl_append]
    rw [happ]
    exact c10_run_stable more (runInserts (reserve idHash emptyTable 4) ks) hmem hmore j hj hsome

set_option maxRecDepth 4000 in
/-- C10, witness: the no-growth and stability guarantees instantiated at
the insert sequence `[0, 1, 0]` followed by `[2]`, observing key 1. -/
theorem insert_within_capacity_witness :
    (runInserts (reserve idHash emptyTable 4) [0, 1, 0]).capacity
      = (reserve idHash emptyTable 4).capacity ∧
    find idHash (runInserts (reserve idHash emptyTable 4) ([0, 1, 0] ++ [2])) 1
      = find idHash (runInserts (reserve idHash emptyTable 4) [0, 1, 0]) 1 :=
  ⟨(insert_within_capacity [0, 1, 0] (by decide)).1,
   (insert_within_capacity [0, 1, 0] (by decide)).2 [2] (by decide) 1 (by decide) (by decide)⟩

end Swiss
